import Mathlib

/-!
Shallow embedding of the PCF857x device-state engine from `src/pcf857x.ts`
(node-pcf8574): the bitmask/direction state model, the full-state-write path,
the poll/diff algorithm, the shared interrupt-GPIO registry and the
PromiseQueue task serializer, together with theorems settling the claims
about them.

JavaScript numbers used as bitmasks in this code are always non-negative and
below 2^16, and the bitwise operators act on 32-bit integers; we model them as
`Nat` with the 32-bit complement made explicit where the source uses `~`.
-/

/-- Enum of the known IC types (`PCF857x_TYPE` in the source). -/
inductive PCF857x_TYPE where
  | PCF8574
  | PCF8575
deriving DecidableEq

/-- Number of pins per IC type: the constructor switch sets `_pins` to 8 for
PCF8574 and 16 for PCF8575. -/
def PCF857x_TYPE.pinCount : PCF857x_TYPE → Nat
  | .PCF8574 => 8
  | .PCF8575 => 16

/-- Constant for undefined pin direction (`PCF857x.DIR_UNDEF = -1`). -/
def DIR_UNDEF : Int := -1

/-- Constant for input pin direction (`PCF857x.DIR_IN = 1`). -/
def DIR_IN : Int := 1

/-- Constant for output pin direction (`PCF857x.DIR_OUT = 0`). -/
def DIR_OUT : Int := 0

/-- Per-instance mutable state of the `PCF857x` class: `_type` (with `_pins`
derived from it exactly as the constructor does), `_directions`,
`_inputPinBitmask`, `_inverted`, `_currentState` and `_currentlyPolling`. -/
structure PCF857x where
  type : PCF857x_TYPE
  directions : List Int
  inputPinBitmask : Nat
  inverted : Nat
  currentState : Nat
  currentlyPolling : Bool
deriving DecidableEq

/-- The `_pins` field: 8 or 16 depending on the IC type. -/
def PCF857x.pins (dev : PCF857x) : Nat := dev.type.pinCount

/-- Errors surfaced by the class (thrown errors and promise rejections). -/
inductive PcfError where
  | addressOutOfRange
  | initialStateOutOfRange
  | pinOutOfRange
  | pinNotOutput
  | otherPollInProgress
  | interruptAlreadyEnabled
  | shortRead
  | busError (code : Nat)
deriving DecidableEq

/-- The `initialState` constructor argument: a boolean or a JS number. -/
inductive InitialState where
  | bool (b : Bool)
  | mask (n : Int)

/-- Helper `_setStatePin`: set or clear one bit of a bitmask. The source
clears via `current & ~(1 << pin)` on 32-bit integers, so the complement is
taken within 32 bits. -/
def _setStatePin (current : Nat) (pin : Nat) (value : Bool) : Nat :=
  if value then
    current ||| (1 <<< pin)
  else
    current &&& ((2 ^ 32 - 1) ^^^ (1 <<< pin))

/-- The constructor: validate the address, resolve `initialState` (booleans
broadcast to all-ones/all-zeros, numeric bitmasks must fit in `pins` bits),
initialize all directions to `DIR_UNDEF` and both masks to zero, store the
initial state as `_currentState` and synchronously write it to the IC.
Returns the new instance together with the bytes of that initial write. -/
def construct (address : Int) (initialState : InitialState) (type : PCF857x_TYPE) :
    Except PcfError (PCF857x × List Nat) :=
  if address < 0 ∨ address > 255 then
    .error .addressOutOfRange
  else
    let pins := type.pinCount
    let resolved : Except PcfError Nat :=
      match initialState with
      | .bool true => .ok (2 ^ pins - 1)
      | .bool false => .ok 0
      | .mask n =>
          if n < 0 ∨ n > (2 : Int) ^ pins - 1 then .error .initialStateOutOfRange
          else .ok n.toNat
    match resolved with
    | .error e => .error e
    | .ok s =>
        let dev : PCF857x :=
          { type := type
            directions := List.replicate pins DIR_UNDEF
            inputPinBitmask := 0
            inverted := 0
            currentState := s
            currentlyPolling := false }
        let bytes :=
          match type with
          | .PCF8574 => [dev.currentState &&& 0xFF]
          | .PCF8575 => [dev.currentState &&& 0xFF, (dev.currentState >>> 8) &&& 0xFF]
        .ok (dev, bytes)

/-- `_setNewState` up to the point where the I2C write is issued: if a new
state is given it is stored into `_currentState` first, then the wire value
`(_currentState XOR _inverted) OR _inputPinBitmask` is computed and encoded
into one byte (PCF8574) or two bytes, low byte first (PCF8575). Returns the
updated instance and the bytes handed to `i2cWrite`. -/
def _setNewState (dev : PCF857x) (newState : Option Nat) : PCF857x × List Nat :=
  let dev1 :=
    match newState with
    | some n => { dev with currentState := n }
    | none => dev
  let newIcState := (dev1.currentState ^^^ dev1.inverted) ||| dev1.inputPinBitmask
  let bytes :=
    match dev1.type with
    | .PCF8574 => [newIcState &&& 0xFF]
    | .PCF8575 => [newIcState &&& 0xFF, (newIcState >>> 8) &&& 0xFF]
  (dev1, bytes)

/-- A complete run of `_setNewState` including the `i2cWrite` callback:
`busErr = some e` models the bus reporting error `e` (the promise rejects),
`none` models a successful write (the promise resolves). -/
def setNewStateRun (dev : PCF857x) (newState : Option Nat) (busErr : Option Nat) :
    PCF857x × List Nat × Except PcfError Unit :=
  let r := _setNewState dev newState
  match busErr with
  | some e => (r.1, r.2, .error (.busError e))
  | none => (r.1, r.2, .ok ())

/-- `_setPinInternal`: replace one bit of `_currentState` and write the full
state. -/
def _setPinInternal (dev : PCF857x) (pin : Nat) (value : Bool) (busErr : Option Nat) :
    PCF857x × List Nat × Except PcfError Unit :=
  setNewStateRun dev (some (_setStatePin dev.currentState pin value)) busErr

/-- `setPin`: range check, direction check, optional toggle, then
`_setPinInternal`. A pin number is a `Nat` here, so the source's `pin < 0`
guard cannot fire and only the upper bound remains. -/
def setPin (dev : PCF857x) (pin : Nat) (value : Option Bool) (busErr : Option Nat) :
    PCF857x × List Nat × Except PcfError Unit :=
  if pin > dev.pins - 1 then
    (dev, [], .error .pinOutOfRange)
  else if dev.directions.getD pin DIR_UNDEF ≠ DIR_OUT then
    (dev, [], .error .pinNotOutput)
  else
    let v :=
      match value with
      | some v => v
      | none => !(decide ((dev.currentState >>> pin) % 2 ≠ 0))
    _setPinInternal dev pin v busErr

/-- `setAllPins`: apply `value` to every output pin of a copy of
`_currentState`, then write the full state once. -/
def setAllPins (dev : PCF857x) (value : Bool) (busErr : Option Nat) :
    PCF857x × List Nat × Except PcfError Unit :=
  let newState :=
    (List.range dev.pins).foldl
      (fun ns pin =>
        if dev.directions.getD pin DIR_UNDEF ≠ DIR_OUT then ns
        else _setStatePin ns pin value)
      dev.currentState
  setNewStateRun dev (some newState) busErr

/-- `outputPin`: range check, then update the inverted mask, clear the input
bit, mark the direction as output, and optionally set the initial value via
`_setPinInternal`. -/
def outputPin (dev : PCF857x) (pin : Nat) (inverted : Bool) (initialValue : Option Bool)
    (busErr : Option Nat) : PCF857x × List Nat × Except PcfError Unit :=
  if pin > dev.pins - 1 then
    (dev, [], .error .pinOutOfRange)
  else
    let dev1 := { dev with inverted := _setStatePin dev.inverted pin inverted }
    let dev2 := { dev1 with inputPinBitmask := _setStatePin dev1.inputPinBitmask pin false }
    let dev3 := { dev2 with directions := dev2.directions.set pin DIR_OUT }
    match initialValue with
    | none => (dev3, [], .ok ())
    | some v => _setPinInternal dev3 pin v busErr

/-- The body of the `for (let pin = 0; pin < this._pins; pin++)` loop of
`processRead` inside `_poll`, iterating over the remaining pin numbers:
non-input pins are skipped; for an input pin whose polarity-corrected read
bit differs from the current-state bit, the bit is replaced and an
`(pin, value)` input event is emitted unless `noEmit` names this pin. -/
def pollLoop (dirs : List Int) (readState : Nat) (noEmit : Option Nat) :
    Nat → List Nat → Nat × List (Nat × Bool)
  | cs, [] => (cs, [])
  | cs, pin :: rest =>
    if dirs.getD pin DIR_UNDEF ≠ DIR_IN then
      pollLoop dirs readState noEmit cs rest
    else if (cs >>> pin) % 2 ≠ (readState >>> pin) % 2 then
      let value := decide ((readState >>> pin) % 2 ≠ 0)
      let cs1 := _setStatePin cs pin value
      let r := pollLoop dirs readState noEmit cs1 rest
      if noEmit ≠ some pin then (r.1, (pin, value) :: r.2) else r
    else
      pollLoop dirs readState noEmit cs rest

/-- `processRead`: apply the inversion mask to the raw read state, then run
the change-detection loop over pins `0 .. _pins - 1`. Returns the updated
instance and the emitted input events in emission order. -/
def processRead (dev : PCF857x) (noEmit : Option Nat) (readState0 : Nat) :
    PCF857x × List (Nat × Bool) :=
  let readState := readState0 ^^^ dev.inverted
  let r := pollLoop dev.directions readState noEmit dev.currentState (List.range dev.pins)
  ({ dev with currentState := r.1 }, r.2)

/-- Decoding of the read buffer: 8 bits from byte 0 for the PCF8574; for the
PCF8575 pins 0-7 come from byte 0 and pins 8-15 from byte 1. -/
def decodeRead (type : PCF857x_TYPE) (bytes : List Nat) : Nat :=
  match type with
  | .PCF8574 => bytes.getD 0 0
  | .PCF8575 => bytes.getD 0 0 ||| (bytes.getD 1 0) <<< 8

/-- A complete run of `_poll`: an overlapping poll is rejected immediately;
otherwise `_currentlyPolling` is raised, the `i2cRead` callback lowers it
again and either rejects (bus error, or wrong number of bytes read) without
touching any other state, or processes the read. `readRes` models the
outcome of `i2cRead`. Returns the final instance, the emitted events and the
promise outcome. -/
def pollRun (dev : PCF857x) (noEmit : Option Nat) (readRes : Except Nat (List Nat)) :
    PCF857x × List (Nat × Bool) × Except PcfError Unit :=
  if dev.currentlyPolling then
    (dev, [], .error .otherPollInProgress)
  else
    let devP := { dev with currentlyPolling := true }
    match readRes with
    | .error e => ({ devP with currentlyPolling := false }, [], .error (.busError e))
    | .ok bytes =>
        let devR := { devP with currentlyPolling := false }
        let expected :=
          match dev.type with
          | .PCF8574 => 1
          | .PCF8575 => 2
        if bytes.length ≠ expected then
          (devR, [], .error .shortRead)
        else
          let r := processRead devR noEmit (decodeRead dev.type bytes)
          (r.1, r.2, .ok ())

/-- `doPoll` simply forwards to `_poll` with no suppressed pin. -/
def doPoll (dev : PCF857x) (readRes : Except Nat (List Nat)) :
    PCF857x × List (Nat × Bool) × Except PcfError Unit :=
  pollRun dev none readRes

/-- `inputPin`: range check, then update the inverted mask, set the input
bit, mark the direction as input, write the full state (activating the high
level on the pin), and on write success poll once with events suppressed for
this pin. Returns the final instance, the write bytes, the poll events and
the overall outcome. -/
def inputPin (dev : PCF857x) (pin : Nat) (inverted : Bool) (busErr : Option Nat)
    (readRes : Except Nat (List Nat)) :
    PCF857x × List Nat × List (Nat × Bool) × Except PcfError Unit :=
  if pin > dev.pins - 1 then
    (dev, [], [], .error .pinOutOfRange)
  else
    let dev1 := { dev with inverted := _setStatePin dev.inverted pin inverted }
    let dev2 := { dev1 with inputPinBitmask := _setStatePin dev1.inputPinBitmask pin true }
    let dev3 := { dev2 with directions := dev2.directions.set pin DIR_IN }
    let w := setNewStateRun dev3 none busErr
    match w.2.2 with
    | .error e => (w.1, w.2.1, [], .error e)
    | .ok _ =>
        let p := pollRun w.1 (some pin) readRes
        (p.1, w.2.1, p.2.1, p.2.2)

/-- `getPinValue`: pure read of one bit of `_currentState`; an out-of-range
pin returns `false`. -/
def getPinValue (dev : PCF857x) (pin : Nat) : Bool :=
  if pin > dev.pins - 1 then false
  else decide ((dev.currentState >>> pin) % 2 ≠ 0)

/-!
The shared interrupt-GPIO registry. `_allInstancesUsedGpios` is a static
object mapping a GPIO pin number to the `Gpio` object exported for it, with a
`pcf857xUseCount` property counting the instances using it; each instance
keeps `_gpio`/`_gpioPin` (both null when not subscribed). The registry is
modelled as a count function (`0` = no entry, matching the object's
truthiness test), with `live` tracking which physical lines are currently
exported and `acquisitions` counting `new Gpio(...)` constructions.
`instGpio` lists the `_gpioPin` of every instance.
-/

/-- Global interrupt state across all instances. -/
structure IntrState where
  useCount : Nat → Nat
  instGpio : List (Option Nat)
  live : Nat → Bool
  acquisitions : Nat

/-- Number of instances whose `_gpioPin` is the given line. -/
def countSubs (l : List (Option Nat)) (line : Nat) : Nat :=
  match l with
  | [] => 0
  | g :: rest => (if g = some line then 1 else 0) + countSubs rest line

/-- `enableInterrupt`: throws if this instance already has a GPIO; otherwise
reuses the registered `Gpio` for the pin (incrementing its use count) or
constructs and registers a fresh one with use count 1, then stores the pin
on the instance and watches the line. -/
def enableInterrupt (s : IntrState) (inst : Nat) (gpioPin : Nat) :
    IntrState × Except PcfError Unit :=
  if (s.instGpio.getD inst none).isSome then
    (s, .error .interruptAlreadyEnabled)
  else if s.useCount gpioPin ≠ 0 then
    ({ s with
        useCount := fun l => if l = gpioPin then s.useCount gpioPin + 1 else s.useCount l
        instGpio := s.instGpio.set inst (some gpioPin) }, .ok ())
  else
    ({ s with
        useCount := fun l => if l = gpioPin then 1 else s.useCount l
        live := fun l => if l = gpioPin then true else s.live l
        acquisitions := s.acquisitions + 1
        instGpio := s.instGpio.set inst (some gpioPin) }, .ok ())

/-- `disableInterrupt`: no-op without a subscription; otherwise unwatch,
decrement the use count, and when it reaches zero delete the registry entry
and unexport the line; in all cases clear `_gpio`/`_gpioPin`. -/
def disableInterrupt (s : IntrState) (inst : Nat) : IntrState :=
  match s.instGpio.getD inst none with
  | none => s
  | some gpioPin =>
      let c := s.useCount gpioPin - 1
      if c = 0 then
        { s with
            useCount := fun l => if l = gpioPin then 0 else s.useCount l
            live := fun l => if l = gpioPin then false else s.live l
            instGpio := s.instGpio.set inst none }
      else
        { s with
            useCount := fun l => if l = gpioPin then c else s.useCount l
            instGpio := s.instGpio.set inst none }

/-- Registry invariant: every line's use count equals the number of
subscribed instances, and the physical line is exported (exactly one handle)
precisely while that count is positive. -/
def intrInvariant (s : IntrState) : Prop :=
  ∀ line, s.useCount line = countSubs s.instGpio line ∧
    (s.live line = true ↔ s.useCount line ≠ 0)

/-!
The `PromiseQueue` task serializer. Tasks are identified by `Nat` ids whose
asynchronous outcomes are given by an `outcome` function; `settled` logs, in
order, each queued handle settling with its task's outcome (the `.then` /
`.catch` branches of `dequeue` call `item.resolve` / `item.reject` with the
outcome of `item.promise()`). A `settle` step models the running task's
promise settling: the handle is settled first, then (in `.finally`) `working`
is cleared and `dequeue` is called again.
-/

/-- State of a `PromiseQueue`: the waiting queue, the `working` flag, the
task whose promise is currently pending, and the log of settled handles. -/
structure PQState where
  queue : List Nat
  working : Bool
  current : Option Nat
  settled : List (Nat × Except Nat Nat)

/-- `dequeue`: returns immediately if `working`; otherwise shifts the first
queued task (if any), sets `working` and starts the task's promise. -/
def dequeuePQ (q : PQState) : PQState :=
  if q.working then q
  else
    match q.queue with
    | [] => q
    | item :: rest => { q with queue := rest, working := true, current := some item }

/-- `enqueue`: push the task (with its resolve/reject pair) onto the queue,
then call `dequeue`. -/
def enqueuePQ (q : PQState) (t : Nat) : PQState :=
  dequeuePQ { q with queue := q.queue ++ [t] }

/-- One settle step: the pending promise settles, its handle is resolved or
rejected with that same task's outcome, then `working` is cleared and
`dequeue` starts the next task. No-op when nothing is pending. -/
def settlePQ (outcome : Nat → Except Nat Nat) (q : PQState) : PQState :=
  match q.current with
  | none => q
  | some t =>
      dequeuePQ { q with
        settled := q.settled ++ [(t, outcome t)]
        working := false
        current := none }

/-- Iterated settle steps. -/
def settleNPQ (outcome : Nat → Except Nat Nat) : Nat → PQState → PQState
  | 0, q => q
  | n + 1, q => settleNPQ outcome n (settlePQ outcome q)

/-- Enqueue a list of tasks in order. -/
def enqueueAllPQ (q : PQState) (ts : List Nat) : PQState :=
  ts.foldl enqueuePQ q

/-- A freshly constructed queue. -/
def emptyPQ : PQState :=
  { queue := [], working := false, current := none, settled := [] }

/-- `isEmpty`: true iff nothing is running and nothing is queued. -/
def isEmptyPQ (q : PQState) : Bool :=
  !q.working && q.queue.length == 0

/-- Actions visible during `processRead`: input-event emissions and the final
`resolve()` of the poll promise. -/
inductive PollAction where
  | emit (pin : Nat) (value : Bool)
  | resolvePromise
deriving DecidableEq

/-- The action trace of `processRead`: the loop emits its input events in
loop order, and `resolve()` runs after the loop. -/
def processReadActions (dev : PCF857x) (noEmit : Option Nat) (readState0 : Nat) :
    List PollAction :=
  ((processRead dev noEmit readState0).2.map (fun e => PollAction.emit e.1 e.2)) ++
    [PollAction.resolvePromise]

/-- The polarity-corrected read state of a poll: the raw decoded read value
XORed with the inversion mask (`readState = readState ^ this._inverted`). -/
def correctedRead (dev : PCF857x) (bytes : List Nat) : Nat :=
  decodeRead dev.type bytes ^^^ dev.inverted

/-!
Concrete instances used as counterexamples and witness inputs.
-/

/-- An 8-pin device with pin 0 configured as output, everything at zero. -/
def devOut0 : PCF857x :=
  { type := .PCF8574
    directions := [DIR_OUT, DIR_UNDEF, DIR_UNDEF, DIR_UNDEF,
      DIR_UNDEF, DIR_UNDEF, DIR_UNDEF, DIR_UNDEF]
    inputPinBitmask := 0
    inverted := 0
    currentState := 0
    currentlyPolling := false }

/-- An 8-pin device with a poll currently in flight. -/
def devPolling : PCF857x :=
  { type := .PCF8574
    directions := [DIR_UNDEF, DIR_UNDEF, DIR_UNDEF, DIR_UNDEF,
      DIR_UNDEF, DIR_UNDEF, DIR_UNDEF, DIR_UNDEF]
    inputPinBitmask := 0
    inverted := 0
    currentState := 0
    currentlyPolling := true }

/-- A 16-pin device with nontrivial masks. -/
def devWide : PCF857x :=
  { type := .PCF8575
    directions := List.replicate 16 DIR_UNDEF
    inputPinBitmask := 3
    inverted := 5
    currentState := 9
    currentlyPolling := false }

/-- An 8-pin device with pin 0 configured as input. -/
def devIn0 : PCF857x :=
  { type := .PCF8574
    directions := [DIR_IN, DIR_UNDEF, DIR_UNDEF, DIR_UNDEF,
      DIR_UNDEF, DIR_UNDEF, DIR_UNDEF, DIR_UNDEF]
    inputPinBitmask := 1
    inverted := 0
    currentState := 0
    currentlyPolling := false }

/-- A freshly constructed 8-pin device (all directions undefined). -/
def devFresh : PCF857x :=
  { type := .PCF8574
    directions := List.replicate 8 DIR_UNDEF
    inputPinBitmask := 0
    inverted := 0
    currentState := 0
    currentlyPolling := false }

/-- Interrupt state with no registered GPIOs and two idle instances. -/
def intrEmpty : IntrState :=
  { useCount := fun _ => 0
    instGpio := [none, none]
    live := fun _ => false
    acquisitions := 0 }

/-- Interrupt state where two instances share GPIO line 4. -/
def intrShared : IntrState :=
  { useCount := fun l => if l = 4 then 2 else 0
    instGpio := [some 4, some 4]
    live := fun l => if l = 4 then true else false
    acquisitions := 1 }

/-- A queue state with one running task and two waiting tasks. -/
def pqBusy : PQState :=
  { queue := [1, 2], working := true, current := some 0, settled := [] }

/-!
Helper lemmas: bit arithmetic for `_setStatePin` and the bridge between the
source's `(x >> pin) % 2` idiom and `Nat.testBit`.
-/

theorem getD_set_self {α : Type} (l : List α) (i : Nat) (a d : α) (h : i < l.length) :
    (l.set i a).getD i d = a := by
  rw [List.getD_eq_getElem?_getD, List.getElem?_set, if_pos rfl, if_pos h]
  rfl

theorem getD_set_ne {α : Type} (l : List α) (i j : Nat) (a d : α) (h : i ≠ j) :
    (l.set i a).getD j d = l.getD j d := by
  rw [List.getD_eq_getElem?_getD, List.getElem?_set, if_neg h, ← List.getD_eq_getElem?_getD]

theorem getD_replicate {α : Type} (n i : Nat) (d : α) :
    (List.replicate n d).getD i d = d := by
  rw [List.getD_eq_getElem?_getD, List.getElem?_replicate]
  split <;> rfl

theorem getD_some_lt (l : List (Option Nat)) (i : Nat) (L : Nat)
    (h : l.getD i none = some L) : i < l.length := by
  by_contra hc
  rw [List.getD_eq_default _ _ (by omega)] at h
  exact Option.noConfusion h

theorem countSubs_set_none_to_some (L x : Nat) :
    ∀ (l : List (Option Nat)) (i : Nat), i < l.length → l.getD i none = none →
      countSubs (l.set i (some L)) x = countSubs l x + (if L = x then 1 else 0) := by
  intro l
  induction l with
  | nil => intro i h _; simp at h
  | cons g rest ih =>
    intro i hlen hget
    cases i with
    | zero =>
      have hg : g = none := hget
      subst hg
      simp only [List.set]
      simp only [countSubs]
      by_cases hLx : L = x <;> simp [hLx]
      omega
    | succ i =>
      simp only [List.set, countSubs]
      rw [ih i (by simpa using hlen) hget]
      omega

theorem countSubs_set_some_to_none (L x : Nat) :
    ∀ (l : List (Option Nat)) (i : Nat), l.getD i none = some L →
      countSubs l x = countSubs (l.set i none) x + (if L = x then 1 else 0) := by
  intro l
  induction l with
  | nil =>
    intro i h
    rw [List.getD_eq_default _ _ (by simp)] at h
    exact Option.noConfusion h
  | cons g rest ih =>
    intro i hget
    cases i with
    | zero =>
      have hg : g = some L := hget
      subst hg
      simp only [List.set, countSubs]
      by_cases hLx : L = x <;> simp [hLx]
      omega
    | succ i =>
      simp only [List.set, countSubs]
      rw [ih i hget]
      omega

theorem countSubs_pos_of_getD (L : Nat) :
    ∀ (l : List (Option Nat)) (i : Nat), l.getD i none = some L → 1 ≤ countSubs l L := by
  intro l
  induction l with
  | nil =>
    intro i h
    rw [List.getD_eq_default _ _ (by simp)] at h
    exact Option.noConfusion h
  | cons g rest ih =>
    intro i hget
    cases i with
    | zero =>
      have hg : g = some L := hget
      subst hg
      simp [countSubs]
    | succ i =>
      have := ih i hget
      simp only [countSubs]
      omega

theorem decide_shiftRight_mod_two (n i : Nat) :
    decide ((n >>> i) % 2 ≠ 0) = n.testBit i := by
  rw [Nat.testBit_to_div_mod, Nat.shiftRight_eq_div_pow]
  exact decide_eq_decide.mpr (by omega)

theorem shiftRight_mod_two_ne_iff (n m i : Nat) :
    (n >>> i) % 2 ≠ (m >>> i) % 2 ↔ n.testBit i ≠ m.testBit i := by
  rw [Nat.testBit_to_div_mod, Nat.testBit_to_div_mod, Nat.shiftRight_eq_div_pow,
    Nat.shiftRight_eq_div_pow]
  rcases Nat.mod_two_eq_zero_or_one (n / 2 ^ i) with h1 | h1 <;>
    rcases Nat.mod_two_eq_zero_or_one (m / 2 ^ i) with h2 | h2 <;> simp [h1, h2]

theorem testBit_setStatePin_lt (cs pin i : Nat) (v : Bool) (hi : i < 32) :
    (_setStatePin cs pin v).testBit i = if i = pin then v else cs.testBit i := by
  unfold _setStatePin
  cases v with
  | true =>
    rw [if_pos rfl, Nat.one_shiftLeft, Nat.testBit_lor, Nat.testBit_two_pow]
    by_cases h : pin = i <;> simp [h, eq_comm]
  | false =>
    rw [if_neg (by simp), Nat.one_shiftLeft, Nat.testBit_land, Nat.testBit_xor,
      Nat.testBit_two_pow_sub_one, Nat.testBit_two_pow]
    by_cases h : pin = i <;> simp [h, hi, eq_comm]

theorem testBit_setStatePin_ge (cs pin i : Nat) (v : Bool) (hpin : pin < 32) (hi : 32 ≤ i) :
    (_setStatePin cs pin v).testBit i = if v then cs.testBit i else false := by
  unfold _setStatePin
  have hne : pin ≠ i := by omega
  cases v with
  | true =>
    rw [if_pos rfl, if_pos rfl, Nat.one_shiftLeft, Nat.testBit_lor, Nat.testBit_two_pow]
    simp [hne]
  | false =>
    rw [if_neg (by simp), if_neg (by simp), Nat.one_shiftLeft, Nat.testBit_land,
      Nat.testBit_xor, Nat.testBit_two_pow_sub_one, Nat.testBit_two_pow]
    have h32 : ¬ i < 32 := by omega
    simp [hne, h32]

/-!
Lemmas about the change-detection loop `pollLoop`.
-/

theorem pollLoop_events_subset (dirs : List Int) (rs : Nat) (noEmit : Option Nat) :
    ∀ (ps : List Nat) (cs : Nat) (e : Nat × Bool),
      e ∈ (pollLoop dirs rs noEmit cs ps).2 → e.1 ∈ ps := by
  intro ps
  induction ps with
  | nil => intro cs e h; simp [pollLoop] at h
  | cons pin rest ih =>
    intro cs e h
    simp only [pollLoop] at h
    split at h
    · exact List.mem_cons_of_mem _ (ih _ _ h)
    · split at h
      · split at h
        · rcases List.mem_cons.mp h with h1 | h1
          · rw [h1]; exact List.mem_cons_self _ _
          · exact List.mem_cons_of_mem _ (ih _ _ h1)
        · exact List.mem_cons_of_mem _ (ih _ _ h)
      · exact List.mem_cons_of_mem _ (ih _ _ h)

theorem pollLoop_state_testBit (dirs : List Int) (rs : Nat) (noEmit : Option Nat) :
    ∀ (ps : List Nat) (cs : Nat) (j : Nat), (∀ p ∈ ps, p < 32) → ps.Nodup → j < 32 →
      (pollLoop dirs rs noEmit cs ps).1.testBit j =
        if j ∈ ps ∧ dirs.getD j DIR_UNDEF = DIR_IN then rs.testBit j else cs.testBit j := by
  intro ps
  induction ps with
  | nil => intro cs j _ _ _; simp [pollLoop]
  | cons pin rest ih =>
    intro cs j hlt hnd hj
    have hpin32 : pin < 32 := hlt pin (List.mem_cons_self _ _)
    have hrest : ∀ p ∈ rest, p < 32 := fun p hp => hlt p (List.mem_cons_of_mem _ hp)
    have hndr : rest.Nodup := (List.nodup_cons.mp hnd).2
    have hpinrest : pin ∉ rest := (List.nodup_cons.mp hnd).1
    simp only [pollLoop]
    split
    · rename_i hdir
      rw [ih cs j hrest hndr hj]
      refine if_congr ⟨fun h => ⟨List.mem_cons_of_mem _ h.1, h.2⟩, fun h => ⟨?_, h.2⟩⟩ rfl rfl
      rcases List.mem_cons.mp h.1 with h1 | h1
      · exact absurd (h1 ▸ h.2) hdir
      · exact h1
    · rename_i hdir
      push_neg at hdir
      split
      · rename_i hne
        have hval : decide ((rs >>> pin) % 2 ≠ 0) = rs.testBit pin :=
          decide_shiftRight_mod_two rs pin
        have main : (pollLoop dirs rs noEmit
            (_setStatePin cs pin (decide ((rs >>> pin) % 2 ≠ 0))) rest).1.testBit j =
            if j ∈ pin :: rest ∧ dirs.getD j DIR_UNDEF = DIR_IN then rs.testBit j
            else cs.testBit j := by
          rw [ih _ j hrest hndr hj, testBit_setStatePin_lt _ _ _ _ hj]
          by_cases hjp : j = pin
          · subst hjp
            rw [if_neg (fun h => hpinrest h.1), if_pos rfl, hval,
              if_pos ⟨List.mem_cons_self _ _, hdir⟩]
          · rw [if_neg hjp]
            refine if_congr ⟨fun h => ⟨List.mem_cons_of_mem _ h.1, h.2⟩,
              fun h => ⟨?_, h.2⟩⟩ rfl rfl
            rcases List.mem_cons.mp h.1 with h1 | h1
            · exact absurd h1 hjp
            · exact h1
        split
        · exact main
        · exact main
      · rename_i heq
        push_neg at heq
        have hbit : cs.testBit pin = rs.testBit pin := by
          by_contra hb
          exact ((shiftRight_mod_two_ne_iff cs rs pin).mpr hb) heq
        rw [ih cs j hrest hndr hj]
        by_cases hjp : j = pin
        · subst hjp
          rw [if_neg (fun h => hpinrest h.1), if_pos ⟨List.mem_cons_self _ _, hdir⟩]
          exact hbit
        · refine if_congr ⟨fun h => ⟨List.mem_cons_of_mem _ h.1, h.2⟩,
            fun h => ⟨?_, h.2⟩⟩ rfl rfl
          rcases List.mem_cons.mp h.1 with h1 | h1
          · exact absurd h1 hjp
          · exact h1

theorem pollLoop_events_iff (dirs : List Int) (rs : Nat) (noEmit : Option Nat) :
    ∀ (ps : List Nat) (cs : Nat) (p : Nat) (v : Bool),
      (∀ q ∈ ps, q < 32) → ps.Nodup → p < 32 →
      ((p, v) ∈ (pollLoop dirs rs noEmit cs ps).2 ↔
        (p ∈ ps ∧ dirs.getD p DIR_UNDEF = DIR_IN ∧ cs.testBit p ≠ rs.testBit p ∧
          noEmit ≠ some p ∧ v = rs.testBit p)) := by
  intro ps
  induction ps with
  | nil => intro cs p v _ _ _; simp [pollLoop]
  | cons pin rest ih =>
    intro cs p v hlt hnd hp32
    have hpin32 : pin < 32 := hlt pin (List.mem_cons_self _ _)
    have hrest : ∀ q ∈ rest, q < 32 := fun q hq => hlt q (List.mem_cons_of_mem _ hq)
    have hndr : rest.Nodup := (List.nodup_cons.mp hnd).2
    have hpinrest : pin ∉ rest := (List.nodup_cons.mp hnd).1
    have congrRest : ∀ (cs1 : Nat), p ≠ pin →
        ((p ∈ rest ∧ dirs.getD p DIR_UNDEF = DIR_IN ∧ cs1.testBit p ≠ rs.testBit p ∧
          noEmit ≠ some p ∧ v = rs.testBit p) ↔
         (p ∈ pin :: rest ∧ dirs.getD p DIR_UNDEF = DIR_IN ∧ cs1.testBit p ≠ rs.testBit p ∧
          noEmit ≠ some p ∧ v = rs.testBit p)) := by
      intro cs1 hjp
      constructor
      · rintro ⟨h1, h2⟩
        exact ⟨List.mem_cons_of_mem _ h1, h2⟩
      · rintro ⟨h1, h2⟩
        rcases List.mem_cons.mp h1 with he | he
        · exact absurd he hjp
        · exact ⟨he, h2⟩
    simp only [pollLoop]
    split
    · rename_i hdir
      rw [ih cs p v hrest hndr hp32]
      by_cases hjp : p = pin
      · subst hjp
        constructor
        · rintro ⟨h1, -⟩
          exact absurd h1 hpinrest
        · rintro ⟨-, h2, -⟩
          exact absurd h2 hdir
      · exact congrRest cs hjp
    · rename_i hdir
      push_neg at hdir
      split
      · rename_i hne
        have hbit : cs.testBit pin ≠ rs.testBit pin :=
          (shiftRight_mod_two_ne_iff cs rs pin).mp hne
        have hval : decide ((rs >>> pin) % 2 ≠ 0) = rs.testBit pin :=
          decide_shiftRight_mod_two rs pin
        by_cases hjp : p = pin
        · subst hjp
          split
          · rename_i hemit
            show (p, v) ∈ (p, decide ((rs >>> p) % 2 ≠ 0)) ::
                (pollLoop dirs rs noEmit (_setStatePin cs p _) rest).2 ↔ _
            constructor
            · intro hmem
              rcases List.mem_cons.mp hmem with h1 | h1
              · have hv : v = decide ((rs >>> p) % 2 ≠ 0) := (Prod.ext_iff.mp h1).2
                exact ⟨List.mem_cons_self _ _, hdir, hbit, hemit, by rw [hv, hval]⟩
              · exact absurd (pollLoop_events_subset dirs rs noEmit rest _ _ h1) hpinrest
            · rintro ⟨-, -, -, -, hv⟩
              rw [hv, ← hval]
              exact List.mem_cons_self _ _
          · rename_i hemit
            push_neg at hemit
            show (p, v) ∈ (pollLoop dirs rs noEmit (_setStatePin cs p _) rest).2 ↔ _
            constructor
            · intro hmem
              exact absurd (pollLoop_events_subset dirs rs noEmit rest _ _ hmem) hpinrest
            · rintro ⟨-, -, -, hsup, -⟩
              exact absurd hemit hsup
        · have hcs1 : (_setStatePin cs pin (decide ((rs >>> pin) % 2 ≠ 0))).testBit p
              = cs.testBit p := by
            rw [testBit_setStatePin_lt _ _ _ _ hp32, if_neg hjp]
          split
          · show (p, v) ∈ (pin, decide ((rs >>> pin) % 2 ≠ 0)) ::
                (pollLoop dirs rs noEmit (_setStatePin cs pin _) rest).2 ↔ _
            rw [List.mem_cons, ih _ p v hrest hndr hp32, hcs1]
            constructor
            · rintro (h1 | h1)
              · exact absurd (Prod.ext_iff.mp h1).1 hjp
              · exact (congrRest cs hjp).mp h1
            · intro h1
              exact Or.inr ((congrRest cs hjp).mpr h1)
          · show (p, v) ∈ (pollLoop dirs rs noEmit (_setStatePin cs pin _) rest).2 ↔ _
            rw [ih _ p v hrest hndr hp32, hcs1]
            exact congrRest cs hjp
      · rename_i heq
        push_neg at heq
        have hbit : cs.testBit pin = rs.testBit pin := by
          by_contra hb
          exact ((shiftRight_mod_two_ne_iff cs rs pin).mpr hb) heq
        rw [ih cs p v hrest hndr hp32]
        by_cases hjp : p = pin
        · subst hjp
          constructor
          · rintro ⟨h1, -⟩
            exact absurd h1 hpinrest
          · rintro ⟨-, -, h3, -⟩
            exact absurd hbit h3
        · exact congrRest cs hjp

theorem pollLoop_events_sorted (dirs : List Int) (rs : Nat) (noEmit : Option Nat) :
    ∀ (ps : List Nat) (cs : Nat), ps.Pairwise (· < ·) →
      (pollLoop dirs rs noEmit cs ps).2.Pairwise (fun a b => a.1 < b.1) := by
  intro ps
  induction ps with
  | nil => intro cs _; simp [pollLoop]
  | cons pin rest ih =>
    intro cs hpw
    have hpwr : rest.Pairwise (· < ·) := (List.pairwise_cons.mp hpw).2
    have hlt : ∀ q ∈ rest, pin < q := (List.pairwise_cons.mp hpw).1
    simp only [pollLoop]
    split
    · exact ih cs hpwr
    · split
      · split
        · refine List.pairwise_cons.mpr ⟨?_, ih _ hpwr⟩
          intro e he
          exact hlt e.1 (pollLoop_events_subset dirs rs noEmit rest _ _ he)
        · exact ih _ hpwr
      · exact ih cs hpwr

theorem pins_le_16 (dev : PCF857x) : dev.pins ≤ 16 := by
  cases h : dev.type <;> simp [PCF857x.pins, PCF857x_TYPE.pinCount, h]

theorem setNewStateRun_fields (dev : PCF857x) (ns : Option Nat) (err : Option Nat) :
    (setNewStateRun dev ns err).1.directions = dev.directions ∧
    (setNewStateRun dev ns err).1.inputPinBitmask = dev.inputPinBitmask ∧
    (setNewStateRun dev ns err).1.inverted = dev.inverted ∧
    (setNewStateRun dev ns err).1.type = dev.type ∧
    (setNewStateRun dev ns err).1.currentlyPolling = dev.currentlyPolling := by
  cases ns <;> cases err <;> exact ⟨rfl, rfl, rfl, rfl, rfl⟩

theorem pollRun_fields (dev : PCF857x) (ne : Option Nat) (rr : Except Nat (List Nat)) :
    (pollRun dev ne rr).1.directions = dev.directions ∧
    (pollRun dev ne rr).1.inputPinBitmask = dev.inputPinBitmask ∧
    (pollRun dev ne rr).1.inverted = dev.inverted ∧
    (pollRun dev ne rr).1.type = dev.type := by
  by_cases hp : dev.currentlyPolling
  · simp [pollRun, hp]
  · cases rr with
    | error e => simp [pollRun, hp]
    | ok bytes =>
      by_cases hlen : bytes.length = (match dev.type with | .PCF8574 => 1 | .PCF8575 => 2)
      · simp [pollRun, hp, hlen, processRead]
      · simp [pollRun, hp, hlen]

/-- Claim C1 counterexample: `setPin` on output pin 0 of `devOut0` with a
failing bus write rejects with the bus error, yet `currentState` has become
1 instead of remaining 0 — the tentative state is committed before the write
and is not rolled back on failure. -/
theorem claim_c1_counterexample :
    (setPin devOut0 0 (some true) (some 7)).2.2 = Except.error (PcfError.busError 7) ∧
    (setPin devOut0 0 (some true) (some 7)).1.currentState = 1 ∧
    devOut0.currentState = 0 := by
  refine ⟨rfl, ?_, rfl⟩
  decide

/-- Claim C1 amended: every full state write (the internal commit with a
tentative state, `setPin`, `setAllPins`, and `outputPin` with an initial
value) stores the tentative new state into `currentState` when the write is
issued, before the outcome of the bus write is known; on bus failure the
failure propagates to the caller but the device state is exactly the state
of a successful write — the tentative state is retained, not discarded. -/
theorem claim_c1_amended (dev : PCF857x) (n pin : Nat) (v : Bool) (val : Option Bool)
    (iv av : Bool) (e : Nat) :
    ((setNewStateRun dev (some n) (some e)).1 = (setNewStateRun dev (some n) none).1 ∧
      (setNewStateRun dev (some n) none).1.currentState = n ∧
      (setNewStateRun dev (some n) (some e)).2.2 = .error (.busError e)) ∧
    ((setPin dev pin val (some e)).1 = (setPin dev pin val none).1 ∧
      (setPin dev pin val (some e)).2.2 =
        (match (setPin dev pin val none).2.2 with
          | .ok _ => Except.error (PcfError.busError e)
          | .error er => Except.error er)) ∧
    ((setAllPins dev av (some e)).1 = (setAllPins dev av none).1 ∧
      (setAllPins dev av (some e)).2.2 = .error (.busError e)) ∧
    ((outputPin dev pin iv (some v) (some e)).1 = (outputPin dev pin iv (some v) none).1 ∧
      (outputPin dev pin iv (some v) (some e)).2.2 =
        (match (outputPin dev pin iv (some v) none).2.2 with
          | .ok _ => Except.error (PcfError.busError e)
          | .error er => Except.error er)) := by
  refine ⟨⟨rfl, rfl, rfl⟩, ⟨?_, ?_⟩, ⟨rfl, rfl⟩, ⟨?_, ?_⟩⟩
  · simp only [setPin]
    split
    · rfl
    · split
      · rfl
      · rfl
  · simp only [setPin]
    split
    · rfl
    · split
      · rfl
      · rfl
  · simp only [outputPin]
    split
    · rfl
    · rfl
  · simp only [outputPin]
    split
    · rfl
    · rfl

/-- Claim C2 counterexample: a poll issued while `devPolling` already has a
poll in flight is rejected immediately with the in-progress error — it is
not queued, although the claimed bound (one in flight plus a small fixed
number waiting) is not exceeded. -/
theorem claim_c2_counterexample :
    pollRun devPolling none (.ok [0]) =
      (devPolling, [], .error .otherPollInProgress) := rfl

/-- Claim C2 amended: a poll request submitted while another poll for the
same instance is in flight is always rejected immediately with the
in-progress error, leaving the device state untouched; there is no poll
queue of any depth. -/
theorem claim_c2_amended (dev : PCF857x) (noEmit : Option Nat)
    (readRes : Except Nat (List Nat)) (h : dev.currentlyPolling = true) :
    pollRun dev noEmit readRes = (dev, [], .error .otherPollInProgress) := by
  simp [pollRun, h]

/-- Witness for the amended claim C2. -/
theorem claim_c2_amended_witness :
    pollRun devPolling none (.error 3) = (devPolling, [], .error .otherPollInProgress) :=
  claim_c2_amended devPolling none (.error 3) rfl

/-- Claim C6: a poll whose bus read fails rejects with the bus failure,
leaves the whole device state unchanged, and emits no input events. -/
theorem claim_c6_read_failure (dev : PCF857x) (noEmit : Option Nat) (e : Nat)
    (h : dev.currentlyPolling = false) :
    pollRun dev noEmit (.error e) = (dev, [], .error (.busError e)) := by
  rcases dev with ⟨t, d, m, i, c, p⟩
  simp only at h
  subst h
  simp [pollRun]

/-- Witness for claim C6. -/
theorem claim_c6_read_failure_witness :
    pollRun devOut0 none (.error 9) = (devOut0, [], .error (.busError 9)) :=
  claim_c6_read_failure devOut0 none 9 rfl

/-- Claim C3: every full state write sends to the bus the value
`(currentState XOR invertedMask) OR inputPinBitmask` (with `currentState`
the committed tentative state), encoded least-significant byte first, byte k
carrying bits 8k..8k+7: one byte for the 8-pin variant, two bytes for the
16-pin variant. -/
theorem claim_c3_wire_format (dev : PCF857x) (newState : Option Nat) :
    ((_setNewState dev newState).2).length = dev.pins / 8 ∧
    ∀ k, k < dev.pins / 8 → ∀ b, b < 8 →
      (((_setNewState dev newState).2).getD k 0).testBit b =
        (((_setNewState dev newState).1.currentState ^^^ dev.inverted) |||
          dev.inputPinBitmask).testBit (8 * k + b) := by
  rcases dev with ⟨t, d, m, i, c, p⟩
  have h255 : (0xFF : Nat) = 2 ^ 8 - 1 := by norm_num
  cases newState with
  | none =>
    cases t with
    | PCF8574 =>
      refine ⟨by simp [_setNewState, PCF857x.pins, PCF857x_TYPE.pinCount], ?_⟩
      intro k hk b hb
      have hk0 : k = 0 := by
        simpa [PCF857x.pins, PCF857x_TYPE.pinCount] using hk
      subst hk0
      show ((c ^^^ i ||| m) &&& 0xFF).testBit b = (c ^^^ i ||| m).testBit (8 * 0 + b)
      rw [h255, Nat.testBit_land, Nat.testBit_two_pow_sub_one]
      simp [hb]
    | PCF8575 =>
      refine ⟨by simp [_setNewState, PCF857x.pins, PCF857x_TYPE.pinCount], ?_⟩
      intro k hk b hb
      have hk1 : k = 0 ∨ k = 1 := by
        have : k < 2 := by simpa [PCF857x.pins, PCF857x_TYPE.pinCount] using hk
        omega
      rcases hk1 with hk0 | hk0 <;> subst hk0
      · show ((c ^^^ i ||| m) &&& 0xFF).testBit b = (c ^^^ i ||| m).testBit (8 * 0 + b)
        rw [h255, Nat.testBit_land, Nat.testBit_two_pow_sub_one]
        simp [hb]
      · show (((c ^^^ i ||| m) >>> 8) &&& 0xFF).testBit b =
          (c ^^^ i ||| m).testBit (8 * 1 + b)
        rw [h255, Nat.testBit_land, Nat.testBit_two_pow_sub_one, Nat.testBit_shiftRight]
        have h8 : 8 + b = 8 * 1 + b := by omega
        simp [hb, h8]
  | some n =>
    cases t with
    | PCF8574 =>
      refine ⟨by simp [_setNewState, PCF857x.pins, PCF857x_TYPE.pinCount], ?_⟩
      intro k hk b hb
      have hk0 : k = 0 := by
        simpa [PCF857x.pins, PCF857x_TYPE.pinCount] using hk
      subst hk0
      show ((n ^^^ i ||| m) &&& 0xFF).testBit b = (n ^^^ i ||| m).testBit (8 * 0 + b)
      rw [h255, Nat.testBit_land, Nat.testBit_two_pow_sub_one]
      simp [hb]
    | PCF8575 =>
      refine ⟨by simp [_setNewState, PCF857x.pins, PCF857x_TYPE.pinCount], ?_⟩
      intro k hk b hb
      have hk1 : k = 0 ∨ k = 1 := by
        have : k < 2 := by simpa [PCF857x.pins, PCF857x_TYPE.pinCount] using hk
        omega
      rcases hk1 with hk0 | hk0 <;> subst hk0
      · show ((n ^^^ i ||| m) &&& 0xFF).testBit b = (n ^^^ i ||| m).testBit (8 * 0 + b)
        rw [h255, Nat.testBit_land, Nat.testBit_two_pow_sub_one]
        simp [hb]
      · show (((n ^^^ i ||| m) >>> 8) &&& 0xFF).testBit b =
          (n ^^^ i ||| m).testBit (8 * 1 + b)
        rw [h255, Nat.testBit_land, Nat.testBit_two_pow_sub_one, Nat.testBit_shiftRight]
        have h8 : 8 + b = 8 * 1 + b := by omega
        simp [hb, h8]

/-- Witness for claim C3, on the 16-pin device `devWide`: byte 1 of the wire
encoding carries bit 8 of the wire value. -/
theorem claim_c3_wire_format_witness :
    (((_setNewState devWide none).2).getD 1 0).testBit 0 =
      (((_setNewState devWide none).1.currentState ^^^ devWide.inverted) |||
        devWide.inputPinBitmask).testBit (8 * 1 + 0) :=
  (claim_c3_wire_format devWide none).2 1 (by decide) 0 (by decide)

/-- Claim C10: the input events of a poll are emitted in ascending
pin-number order, and the poll promise is resolved only after all of them
(the action trace of a successful read is the emissions, in ascending pin
order, followed by the resolve). -/
theorem claim_c10_event_order (dev : PCF857x) (noEmit : Option Nat)
    (readRes : Except Nat (List Nat)) (rs0 : Nat) :
    List.Pairwise (fun a b => a.1 < b.1) (pollRun dev noEmit readRes).2.1 ∧
    List.Pairwise (fun a b => a.1 < b.1) (processRead dev noEmit rs0).2 ∧
    processReadActions dev noEmit rs0 =
      ((processRead dev noEmit rs0).2.map (fun e => PollAction.emit e.1 e.2)) ++
        [PollAction.resolvePromise] ∧
    (processReadActions dev noEmit rs0).getLast? = some PollAction.resolvePromise := by
  have hsorted : ∀ (d : PCF857x) (ne : Option Nat) (r : Nat),
      List.Pairwise (fun a b => a.1 < b.1) (processRead d ne r).2 := by
    intro d ne r
    simp only [processRead]
    exact pollLoop_events_sorted _ _ _ _ _ (List.pairwise_lt_range _)
  refine ⟨?_, hsorted dev noEmit rs0, rfl, List.getLast?_concat _⟩
  by_cases hp : dev.currentlyPolling
  · simp [pollRun, hp]
  · cases readRes with
    | error e => simp [pollRun, hp]
    | ok bytes =>
      by_cases hlen : bytes.length = (match dev.type with | .PCF8574 => 1 | .PCF8575 => 2)
      · simpa [pollRun, hp, hlen] using hsorted _ noEmit (decodeRead dev.type bytes)
      · simp [pollRun, hp, hlen]

/-- Claim C4: on a successful poll read, only pins with direction Input are
compared (polarity-corrected) with `currentState`; on mismatch the bit is
updated and a `(pin, value)` event is emitted unless the pin is the poll's
suppressed pin; non-input pins are never compared or emitted; a read
identical on all input pins emits nothing. -/
theorem claim_c4_change_detection (dev : PCF857x) (noEmit : Option Nat) (bytes : List Nat)
    (hpoll : dev.currentlyPolling = false) (hlen : bytes.length = dev.pins / 8) :
    (pollRun dev noEmit (.ok bytes)).2.2 = .ok () ∧
    (∀ pin, pin < dev.pins → dev.directions.getD pin DIR_UNDEF ≠ DIR_IN →
      ((pollRun dev noEmit (.ok bytes)).1.currentState.testBit pin =
          dev.currentState.testBit pin ∧
        ∀ v : Bool, (pin, v) ∉ (pollRun dev noEmit (.ok bytes)).2.1)) ∧
    (∀ pin, pin < dev.pins → dev.directions.getD pin DIR_UNDEF = DIR_IN →
      ((pollRun dev noEmit (.ok bytes)).1.currentState.testBit pin =
          (correctedRead dev bytes).testBit pin ∧
        ∀ v : Bool, ((pin, v) ∈ (pollRun dev noEmit (.ok bytes)).2.1 ↔
          (v = (correctedRead dev bytes).testBit pin ∧
            (correctedRead dev bytes).testBit pin ≠ dev.currentState.testBit pin ∧
            noEmit ≠ some pin)))) ∧
    ((∀ pin, pin < dev.pins → dev.directions.getD pin DIR_UNDEF = DIR_IN →
        (correctedRead dev bytes).testBit pin = dev.currentState.testBit pin) →
      (pollRun dev noEmit (.ok bytes)).2.1 = []) := by
  have hexp : dev.pins / 8 = (match dev.type with | .PCF8574 => 1 | .PCF8575 => 2) := by
    cases h : dev.type <;> simp [PCF857x.pins, PCF857x_TYPE.pinCount, h]
  rw [hexp] at hlen
  have hrun : pollRun dev noEmit (.ok bytes) =
      ((processRead { dev with currentlyPolling := false } noEmit
          (decodeRead dev.type bytes)).1,
       (processRead { dev with currentlyPolling := false } noEmit
          (decodeRead dev.type bytes)).2,
       .ok ()) := by
    simp [pollRun, hpoll, hlen]
  have hlt32 : ∀ p ∈ List.range dev.pins, p < 32 := by
    intro p hp
    have h1 : p < dev.pins := List.mem_range.mp hp
    have h2 : dev.pins ≤ 16 := pins_le_16 dev
    omega
  have hnd := List.nodup_range dev.pins
  have hstate : ∀ pin, pin < 32 →
      (pollRun dev noEmit (.ok bytes)).1.currentState.testBit pin =
        if pin ∈ List.range dev.pins ∧ dev.directions.getD pin DIR_UNDEF = DIR_IN then
          (correctedRead dev bytes).testBit pin
        else dev.currentState.testBit pin := by
    intro pin h32
    rw [hrun]
    simp only [processRead, correctedRead]
    exact pollLoop_state_testBit _ _ _ _ _ _ hlt32 hnd h32
  have hmem : ∀ pin, pin < 32 → ∀ v : Bool,
      ((pin, v) ∈ (pollRun dev noEmit (.ok bytes)).2.1 ↔
        (pin ∈ List.range dev.pins ∧ dev.directions.getD pin DIR_UNDEF = DIR_IN ∧
          dev.currentState.testBit pin ≠ (correctedRead dev bytes).testBit pin ∧
          noEmit ≠ some pin ∧ v = (correctedRead dev bytes).testBit pin)) := by
    intro pin h32 v
    rw [hrun]
    simp only [processRead, correctedRead]
    exact pollLoop_events_iff _ _ _ _ _ _ _ hlt32 hnd h32
  refine ⟨by rw [hrun], ?_, ?_, ?_⟩
  · intro pin hpin hdir
    have h32 : pin < 32 := by
      have := pins_le_16 dev
      omega
    constructor
    · rw [hstate pin h32, if_neg (fun h => hdir h.2)]
    · intro v hv
      exact hdir ((hmem pin h32 v).mp hv).2.1
  · intro pin hpin hdir
    have h32 : pin < 32 := by
      have := pins_le_16 dev
      omega
    constructor
    · rw [hstate pin h32, if_pos ⟨List.mem_range.mpr hpin, hdir⟩]
    · intro v
      rw [hmem pin h32 v]
      constructor
      · rintro ⟨-, -, h3, h4, h5⟩
        exact ⟨h5, fun h => h3 h.symm, h4⟩
      · rintro ⟨h5, h3, h4⟩
        exact ⟨List.mem_range.mpr hpin, hdir, fun h => h3 h.symm, h4, h5⟩
  · intro hsame
    rw [List.eq_nil_iff_forall_not_mem]
    rintro ⟨pin, v⟩ hv
    have h32 : pin < 32 := by
      have hsub : pin ∈ List.range dev.pins := by
        rw [hrun] at hv
        simp only [processRead] at hv
        exact pollLoop_events_subset _ _ _ _ _ _ hv
      have h1 := List.mem_range.mp hsub
      have h2 := pins_le_16 dev
      omega
    rcases (hmem pin h32 v).mp hv with ⟨hmemr, hdir, hne, -, -⟩
    exact hne (hsame pin (List.mem_range.mp hmemr) hdir).symm

/-- Witness for claim C4: polling `devIn0` (pin 0 is an input, state 0) with
read byte 1 updates bit 0 of `currentState` to the corrected read bit. -/
theorem claim_c4_change_detection_witness :
    (pollRun devIn0 none (.ok [1])).1.currentState.testBit 0 =
      (correctedRead devIn0 [1]).testBit 0 :=
  ((claim_c4_change_detection devIn0 none [1] rfl (by decide)).2.2.1 0 (by decide)
    (by decide)).1

/-- Claim C7: constructing with a bitmask B that fits in `pinCount` bits
makes `getPinValue i` reproduce bit i of B for every pin; `true` behaves as
the all-ones bitmask and `false` as all-zeros; a bitmask outside
[0, 2^pinCount - 1] makes the constructor fail with the range error. -/
theorem claim_c7_initial_state (type : PCF857x_TYPE) (B : Nat) (n : Int)
    (hB : B < 2 ^ type.pinCount) (hn : n < 0 ∨ n > (2:Int) ^ type.pinCount - 1) :
    (∃ dev bytes, construct 56 (.mask (B : Int)) type = .ok (dev, bytes) ∧
      ∀ i, i < dev.pins → getPinValue dev i = B.testBit i) ∧
    construct 56 (.bool true) type =
      construct 56 (.mask ((2:Int) ^ type.pinCount - 1)) type ∧
    construct 56 (.bool false) type = construct 56 (.mask 0) type ∧
    construct 56 (.mask n) type = .error .initialStateOutOfRange := by
  have haddr : ¬((56:Int) < 0 ∨ (56:Int) > 255) := by norm_num
  have hcast : ((2 ^ type.pinCount - 1 : Nat) : Int) = (2:Int) ^ type.pinCount - 1 := by
    have h1 : (1:Nat) ≤ 2 ^ type.pinCount := Nat.one_le_two_pow
    push_cast [h1]
    ring
  refine ⟨?_, ?_, ?_, ?_⟩
  · have hBrange : ¬((B:Int) < 0 ∨ (B:Int) > (2:Int) ^ type.pinCount - 1) := by
      push_neg
      refine ⟨Int.natCast_nonneg B, ?_⟩
      calc (B : Int) ≤ ((2 ^ type.pinCount - 1 : Nat) : Int) := by
            exact_mod_cast Nat.le_sub_one_of_lt hB
        _ = (2:Int) ^ type.pinCount - 1 := hcast
    have hconstr : construct 56 (.mask (B : Int)) type =
        .ok ({ type := type, directions := List.replicate type.pinCount DIR_UNDEF,
               inputPinBitmask := 0, inverted := 0, currentState := B,
               currentlyPolling := false },
             match type with
             | .PCF8574 => [B &&& 0xFF]
             | .PCF8575 => [B &&& 0xFF, (B >>> 8) &&& 0xFF]) := by
      simp only [construct, if_neg haddr, if_neg hBrange, Int.toNat_natCast]
      cases type <;> rfl
    refine ⟨_, _, hconstr, ?_⟩
    intro i hi
    have hpos : 0 < type.pinCount := by cases type <;> simp [PCF857x_TYPE.pinCount]
    simp only [PCF857x.pins] at hi
    simp only [getPinValue, PCF857x.pins]
    rw [if_neg (by omega), decide_shiftRight_mod_two]
  · have hrange : ¬(((2 ^ type.pinCount - 1 : Nat) : Int) < 0 ∨
        ((2 ^ type.pinCount - 1 : Nat) : Int) > (2:Int) ^ type.pinCount - 1) := by
      push_neg
      exact ⟨Int.natCast_nonneg _, le_of_eq hcast⟩
    rw [← hcast]
    simp only [construct, if_neg haddr, if_neg hrange, Int.toNat_natCast]
  · have hrange0 : ¬((0 : Int) < 0 ∨ (0 : Int) > (2:Int) ^ type.pinCount - 1) := by
      push_neg
      refine ⟨le_refl 0, ?_⟩
      rw [← hcast]
      exact Int.natCast_nonneg _
    simp only [construct, if_neg haddr, if_neg hrange0, Int.toNat_zero]
  · simp only [construct, if_neg haddr, if_pos hn]

/-- Witness for claim C7: initial bitmask 300 is out of range for the 8-pin
variant. -/
theorem claim_c7_initial_state_witness :
    construct 56 (.mask (300 : Int)) PCF857x_TYPE.PCF8574 =
      .error .initialStateOutOfRange :=
  (claim_c7_initial_state .PCF8574 5 300 (by decide) (by decide)).2.2.2

theorem outputPin_fields (dev : PCF857x) (pin : Nat) (iv : Bool) (initV : Option Bool)
    (err : Option Nat) (hrange : ¬ pin > dev.pins - 1) :
    (outputPin dev pin iv initV err).1.inputPinBitmask =
      _setStatePin dev.inputPinBitmask pin false ∧
    (outputPin dev pin iv initV err).1.directions = dev.directions.set pin DIR_OUT ∧
    (outputPin dev pin iv initV err).1.type = dev.type := by
  cases initV <;> cases err <;>
    simp [outputPin, if_neg hrange, _setPinInternal, setNewStateRun, _setNewState]

theorem inputPin_fields (dev : PCF857x) (pin : Nat) (iv : Bool) (err : Option Nat)
    (rr : Except Nat (List Nat)) (hrange : ¬ pin > dev.pins - 1) :
    (inputPin dev pin iv err rr).1.inputPinBitmask =
      _setStatePin dev.inputPinBitmask pin true ∧
    (inputPin dev pin iv err rr).1.directions = dev.directions.set pin DIR_IN ∧
    (inputPin dev pin iv err rr).1.type = dev.type := by
  cases err with
  | some e => simp [inputPin, if_neg hrange, setNewStateRun, _setNewState]
  | none =>
    simp only [inputPin, if_neg hrange, setNewStateRun, _setNewState]
    refine ⟨?_, ?_, ?_⟩
    · rw [(pollRun_fields _ (some pin) rr).2.1]
    · rw [(pollRun_fields _ (some pin) rr).1]
    · rw [(pollRun_fields _ (some pin) rr).2.2.2]

theorem setPin_fields (dev : PCF857x) (pin : Nat) (v : Option Bool) (err : Option Nat) :
    (setPin dev pin v err).1.directions = dev.directions ∧
    (setPin dev pin v err).1.inputPinBitmask = dev.inputPinBitmask := by
  by_cases h1 : pin > dev.pins - 1
  · simp [setPin, h1]
  · by_cases h2 : dev.directions[pin]?.getD DIR_UNDEF = DIR_OUT
    · cases err <;> simp [setPin, h1, h2, _setPinInternal, setNewStateRun, _setNewState]
    · simp [setPin, h1, h2]

theorem setAllPins_fields (dev : PCF857x) (v : Bool) (err : Option Nat) :
    (setAllPins dev v err).1.directions = dev.directions ∧
    (setAllPins dev v err).1.inputPinBitmask = dev.inputPinBitmask := by
  cases err <;> simp [setAllPins, setNewStateRun, _setNewState]

theorem pins_pos (dev : PCF857x) : 0 < dev.pins := by
  cases h : dev.type <;> simp [PCF857x.pins, PCF857x_TYPE.pinCount, h]

/-- Claim C5: from construction onward every operation preserves the
invariant that bit i of `inputPinBitmask` is set iff `directions[i]` is
Input: the constructor establishes it (all directions undefined, mask zero),
`outputPin` clears the bit while setting the direction to Output, `inputPin`
sets the bit while setting the direction to Input, and `setPin`,
`setAllPins` and polling touch neither the direction table nor the input
mask. -/
theorem claim_c5_input_mask_invariant :
    (∀ (a : Int) (init : InitialState) (t : PCF857x_TYPE) (dev : PCF857x) (bytes : List Nat),
      construct a init t = .ok (dev, bytes) →
        (dev.directions.length = dev.pins ∧
          ∀ i, (dev.inputPinBitmask.testBit i = true ↔
            dev.directions.getD i DIR_UNDEF = DIR_IN))) ∧
    (∀ (dev : PCF857x) (pin : Nat) (iv : Bool) (initV : Option Bool) (err : Option Nat),
      dev.directions.length = dev.pins →
      (∀ i, dev.inputPinBitmask.testBit i = true ↔
        dev.directions.getD i DIR_UNDEF = DIR_IN) →
      ((outputPin dev pin iv initV err).1.directions.length =
          (outputPin dev pin iv initV err).1.pins ∧
        (∀ i, (outputPin dev pin iv initV err).1.inputPinBitmask.testBit i = true ↔
          (outputPin dev pin iv initV err).1.directions.getD i DIR_UNDEF = DIR_IN) ∧
        (¬ pin > dev.pins - 1 →
          (outputPin dev pin iv initV err).1.inputPinBitmask.testBit pin = false ∧
          (outputPin dev pin iv initV err).1.directions.getD pin DIR_UNDEF = DIR_OUT))) ∧
    (∀ (dev : PCF857x) (pin : Nat) (iv : Bool) (err : Option Nat) (rr : Except Nat (List Nat)),
      dev.directions.length = dev.pins →
      (∀ i, dev.inputPinBitmask.testBit i = true ↔
        dev.directions.getD i DIR_UNDEF = DIR_IN) →
      ((inputPin dev pin iv err rr).1.directions.length =
          (inputPin dev pin iv err rr).1.pins ∧
        (∀ i, (inputPin dev pin iv err rr).1.inputPinBitmask.testBit i = true ↔
          (inputPin dev pin iv err rr).1.directions.getD i DIR_UNDEF = DIR_IN) ∧
        (¬ pin > dev.pins - 1 →
          (inputPin dev pin iv err rr).1.inputPinBitmask.testBit pin = true ∧
          (inputPin dev pin iv err rr).1.directions.getD pin DIR_UNDEF = DIR_IN))) ∧
    (∀ (dev : PCF857x) (pin : Nat) (v : Option Bool) (err : Option Nat),
      (setPin dev pin v err).1.directions = dev.directions ∧
      (setPin dev pin v err).1.inputPinBitmask = dev.inputPinBitmask) ∧
    (∀ (dev : PCF857x) (v : Bool) (err : Option Nat),
      (setAllPins dev v err).1.directions = dev.directions ∧
      (setAllPins dev v err).1.inputPinBitmask = dev.inputPinBitmask) ∧
    (∀ (dev : PCF857x) (ne : Option Nat) (rr : Except Nat (List Nat)),
      (pollRun dev ne rr).1.directions = dev.directions ∧
      (pollRun dev ne rr).1.inputPinBitmask = dev.inputPinBitmask) := by
  refine ⟨?_, ?_, ?_, setPin_fields, setAllPins_fields,
    fun dev ne rr => ⟨(pollRun_fields dev ne rr).1, (pollRun_fields dev ne rr).2.1⟩⟩
  · intro a init t dev bytes h
    simp only [construct] at h
    split at h
    · simp at h
    · split at h
      · simp at h
      · rw [Except.ok.injEq] at h
        obtain ⟨hd, -⟩ := Prod.ext_iff.mp h
        subst hd
        refine ⟨by simp [PCF857x.pins], ?_⟩
        intro i
        constructor
        · intro hb
          simp [Nat.zero_testBit] at hb
        · intro hb
          rw [getD_replicate] at hb
          exact absurd hb (by decide)
  · intro dev pin iv initV err hlen hinv
    by_cases hrange : pin > dev.pins - 1
    · have hid : (outputPin dev pin iv initV err).1 = dev := by
        simp [outputPin, hrange]
      rw [hid]
      exact ⟨hlen, hinv, fun hc => absurd hrange hc⟩
    · have hpin : pin < dev.pins := by
        have := pins_pos dev
        omega
      have hpin32 : pin < 32 := by
        have := pins_le_16 dev
        omega
      obtain ⟨hm, hd, ht⟩ := outputPin_fields dev pin iv initV err hrange
      have hlenpin : pin < dev.directions.length := by
        rw [hlen]
        exact hpin
      refine ⟨?_, ?_, ?_⟩
      · rw [hd, List.length_set, hlen]
        simp [PCF857x.pins, ht]
      · intro i
        rw [hm, hd]
        by_cases hi32 : i < 32
        · rw [testBit_setStatePin_lt _ _ _ _ hi32]
          by_cases hip : i = pin
          · subst hip
            rw [if_pos rfl, getD_set_self _ _ _ _ hlenpin]
            simp [DIR_OUT, DIR_IN]
          · rw [if_neg hip, getD_set_ne _ _ _ _ _ (fun h => hip h.symm)]
            exact hinv i
        · have hge : dev.directions.length ≤ i := by
            rw [hlen]
            have := pins_le_16 dev
            omega
          rw [testBit_setStatePin_ge _ _ _ _ hpin32 (by omega),
            if_neg Bool.false_ne_true,
            List.getD_eq_default _ _ (by rw [List.length_set]; exact hge)]
          simp [DIR_UNDEF, DIR_IN]
      · rintro -
        rw [hm, hd, testBit_setStatePin_lt _ _ _ _ hpin32, if_pos rfl,
          getD_set_self _ _ _ _ hlenpin]
        exact ⟨rfl, rfl⟩
  · intro dev pin iv err rr hlen hinv
    by_cases hrange : pin > dev.pins - 1
    · have hid : (inputPin dev pin iv err rr).1 = dev := by
        simp [inputPin, hrange]
      rw [hid]
      exact ⟨hlen, hinv, fun hc => absurd hrange hc⟩
    · have hpin : pin < dev.pins := by
        have := pins_pos dev
        omega
      have hpin32 : pin < 32 := by
        have := pins_le_16 dev
        omega
      obtain ⟨hm, hd, ht⟩ := inputPin_fields dev pin iv err rr hrange
      have hlenpin : pin < dev.directions.length := by
        rw [hlen]
        exact hpin
      refine ⟨?_, ?_, ?_⟩
      · rw [hd, List.length_set, hlen]
        simp [PCF857x.pins, ht]
      · intro i
        rw [hm, hd]
        by_cases hi32 : i < 32
        · rw [testBit_setStatePin_lt _ _ _ _ hi32]
          by_cases hip : i = pin
          · subst hip
            rw [if_pos rfl, getD_set_self _ _ _ _ hlenpin]
            simp
          · rw [if_neg hip, getD_set_ne _ _ _ _ _ (fun h => hip h.symm)]
            exact hinv i
        · have hge : dev.directions.length ≤ i := by
            rw [hlen]
            have := pins_le_16 dev
            omega
          rw [testBit_setStatePin_ge _ _ _ _ hpin32 (by omega), if_pos rfl,
            hinv i, List.getD_eq_default _ _ hge,
            List.getD_eq_default _ _ (by rw [List.length_set]; exact hge)]
      · rintro -
        rw [hm, hd, testBit_setStatePin_lt _ _ _ _ hpin32, if_pos rfl,
          getD_set_self _ _ _ _ hlenpin]
        exact ⟨rfl, rfl⟩

/-- Witness for claim C5: configuring pin 2 of a fresh device as output
clears its input-mask bit and marks its direction Output. -/
theorem claim_c5_input_mask_invariant_witness :
    (outputPin devFresh 2 false none none).1.inputPinBitmask.testBit 2 = false ∧
    (outputPin devFresh 2 false none none).1.directions.getD 2 DIR_UNDEF = DIR_OUT := by
  have hinv : ∀ i, devFresh.inputPinBitmask.testBit i = true ↔
      devFresh.directions.getD i DIR_UNDEF = DIR_IN := by
    intro i
    constructor
    · intro hb
      simp [devFresh, Nat.zero_testBit] at hb
    · intro hb
      rw [show devFresh.directions = List.replicate 8 DIR_UNDEF from rfl,
        getD_replicate] at hb
      exact absurd hb (by decide)
  exact (claim_c5_input_mask_invariant.2.1 devFresh 2 false none none rfl hinv).2.2
    (by decide)

theorem enableInterrupt_invariant (s : IntrState) (inst line : Nat)
    (hinv : intrInvariant s) (hlt : inst < s.instGpio.length) :
    intrInvariant (enableInterrupt s inst line).1 := by
  by_cases hsub : (s.instGpio.getD inst none).isSome = true
  · simp only [enableInterrupt, hsub, if_true]
    exact hinv
  · have hnone : s.instGpio.getD inst none = none := Option.not_isSome_iff_eq_none.mp hsub
    by_cases hc : s.useCount line = 0
    · simp only [enableInterrupt, hsub, hc, if_false, Bool.false_eq_true, ne_eq,
        not_true_eq_false, not_false_eq_true]
      intro l
      constructor
      · show (if l = line then 1 else s.useCount l) =
          countSubs (s.instGpio.set inst (some line)) l
        rw [countSubs_set_none_to_some line l s.instGpio inst hlt hnone]
        by_cases hl : l = line
        · subst hl
          rw [if_pos rfl, if_pos rfl]
          have h1 := (hinv l).1
          omega
        · rw [if_neg hl, if_neg (fun h => hl h.symm)]
          have h1 := (hinv l).1
          omega
      · show (if l = line then true else s.live l) = true ↔
          (if l = line then 1 else s.useCount l) ≠ 0
        by_cases hl : l = line
        · simp [hl]
        · simp only [if_neg hl]
          exact (hinv l).2
    · simp only [enableInterrupt, hsub, if_false, Bool.false_eq_true, ne_eq, hc,
        not_false_eq_true, if_true]
      intro l
      constructor
      · show (if l = line then s.useCount line + 1 else s.useCount l) =
          countSubs (s.instGpio.set inst (some line)) l
        rw [countSubs_set_none_to_some line l s.instGpio inst hlt hnone]
        by_cases hl : l = line
        · subst hl
          rw [if_pos rfl, if_pos rfl]
          have h1 := (hinv l).1
          omega
        · rw [if_neg hl, if_neg (fun h => hl h.symm)]
          have h1 := (hinv l).1
          omega
      · show s.live l = true ↔
          (if l = line then s.useCount line + 1 else s.useCount l) ≠ 0
        by_cases hl : l = line
        · subst hl
          rw [if_pos rfl]
          constructor
          · intro _
            omega
          · intro _
            exact (hinv l).2.mpr hc
        · rw [if_neg hl]
          exact (hinv l).2

theorem disableInterrupt_invariant (s : IntrState) (inst : Nat)
    (hinv : intrInvariant s) : intrInvariant (disableInterrupt s inst) := by
  rcases hg : s.instGpio.getD inst none with _ | line
  · simp only [disableInterrupt, hg]
    exact hinv
  · have hpos : 1 ≤ countSubs s.instGpio line := countSubs_pos_of_getD line s.instGpio inst hg
    have hcount := (hinv line).1
    by_cases hz : s.useCount line - 1 = 0
    · simp only [disableInterrupt, hg, if_pos hz]
      intro l
      have h2 := countSubs_set_some_to_none line l s.instGpio inst hg
      constructor
      · show (if l = line then 0 else s.useCount l) =
          countSubs (s.instGpio.set inst none) l
        by_cases hl : l = line
        · subst hl
          rw [if_pos rfl] at h2
          rw [if_pos (Eq.refl l)]
          have h1 := (hinv l).1
          omega
        · rw [if_neg (fun h => hl h.symm)] at h2
          rw [if_neg hl]
          have h1 := (hinv l).1
          omega
      · show (if l = line then false else s.live l) = true ↔
          (if l = line then 0 else s.useCount l) ≠ 0
        by_cases hl : l = line
        · simp [hl]
        · simp only [if_neg hl]
          exact (hinv l).2
    · simp only [disableInterrupt, hg, if_neg hz]
      intro l
      have h2 := countSubs_set_some_to_none line l s.instGpio inst hg
      constructor
      · show (if l = line then s.useCount line - 1 else s.useCount l) =
          countSubs (s.instGpio.set inst none) l
        by_cases hl : l = line
        · subst hl
          rw [if_pos rfl] at h2
          rw [if_pos (Eq.refl l)]
          have h1 := (hinv l).1
          omega
        · rw [if_neg (fun h => hl h.symm)] at h2
          rw [if_neg hl]
          have h1 := (hinv l).1
          omega
      · show s.live l = true ↔
          (if l = line then s.useCount line - 1 else s.useCount l) ≠ 0
        by_cases hl : l = line
        · subst hl
          rw [if_pos (Eq.refl l)]
          constructor
          · intro _
            exact hz
          · intro _
            refine (hinv l).2.mpr ?_
            omega
        · rw [if_neg hl]
          exact (hinv l).2

theorem disableInterrupt_decrement (s : IntrState) (inst line : Nat)
    (hinv : intrInvariant s) (hg : s.instGpio.getD inst none = some line) :
    (disableInterrupt s inst).useCount line = s.useCount line - 1 ∧
    ((disableInterrupt s inst).live line = true ↔ s.useCount line - 1 ≠ 0) := by
  have hpos : 1 ≤ countSubs s.instGpio line := countSubs_pos_of_getD line s.instGpio inst hg
  have hcount := (hinv line).1
  have hg2 : s.instGpio[inst]?.getD none = some line := by
    rw [← List.getD_eq_getElem?_getD]
    exact hg
  by_cases hz : s.useCount line - 1 = 0
  · refine ⟨?_, ?_⟩
    · have h0 : (disableInterrupt s inst).useCount line = 0 := by
        simp [disableInterrupt, hg2, hz]
      omega
    · have h0 : (disableInterrupt s inst).live line = false := by
        simp [disableInterrupt, hg2, hz]
      rw [h0, hz]
      simp
  · refine ⟨?_, ?_⟩
    · simp [disableInterrupt, hg2, hz]
    · have h0 : (disableInterrupt s inst).live line = s.live line := by
        simp [disableInterrupt, hg2, hz]
      rw [h0, (hinv line).2]
      constructor
      · intro _
        exact hz
      · intro _
        omega

/-- Claim C8: the shared GPIO registry keeps, per line, a use count equal to
the number of subscribed instances, with the physical line exported exactly
while the count is positive; two instances enabling the same line give one
acquisition with count 2; each disable decrements and the line is released
only at zero; enabling on an already-subscribed instance fails with a state
error and changes nothing. -/
theorem claim_c8_interrupt_registry :
    (∀ (s : IntrState) (inst line : Nat), intrInvariant s → inst < s.instGpio.length →
      intrInvariant (enableInterrupt s inst line).1) ∧
    (∀ (s : IntrState) (inst : Nat), intrInvariant s →
      intrInvariant (disableInterrupt s inst)) ∧
    (∀ (s : IntrState) (inst line : Nat), (s.instGpio.getD inst none).isSome = true →
      enableInterrupt s inst line = (s, .error .interruptAlreadyEnabled)) ∧
    (∀ (s : IntrState) (inst line : Nat), intrInvariant s →
      s.instGpio.getD inst none = some line →
      ((disableInterrupt s inst).useCount line = s.useCount line - 1 ∧
        ((disableInterrupt s inst).live line = true ↔ s.useCount line - 1 ≠ 0))) ∧
    ((enableInterrupt (enableInterrupt intrEmpty 0 4).1 1 4).1.acquisitions = 1 ∧
      (enableInterrupt (enableInterrupt intrEmpty 0 4).1 1 4).1.useCount 4 = 2 ∧
      (disableInterrupt (enableInterrupt (enableInterrupt intrEmpty 0 4).1 1 4).1
        0).useCount 4 = 1 ∧
      (disableInterrupt (enableInterrupt (enableInterrupt intrEmpty 0 4).1 1 4).1
        0).live 4 = true ∧
      (disableInterrupt (disableInterrupt
        (enableInterrupt (enableInterrupt intrEmpty 0 4).1 1 4).1 0) 1).useCount 4 = 0 ∧
      (disableInterrupt (disableInterrupt
        (enableInterrupt (enableInterrupt intrEmpty 0 4).1 1 4).1 0) 1).live 4 = false) := by
  refine ⟨enableInterrupt_invariant, disableInterrupt_invariant, ?_,
    disableInterrupt_decrement, ?_⟩
  · intro s inst line h
    have h2 : (s.instGpio[inst]?.getD none).isSome = true := by
      rw [← List.getD_eq_getElem?_getD]
      exact h
    simp [enableInterrupt, h2]
  · exact ⟨rfl, rfl, rfl, rfl, rfl, rfl⟩

/-- Witness for claim C8: with two instances sharing line 4 (count 2), a
disable on instance 0 leaves count 1 and the line still exported. -/
theorem claim_c8_interrupt_registry_witness :
    (disableInterrupt intrShared 0).useCount 4 = intrShared.useCount 4 - 1 ∧
    ((disableInterrupt intrShared 0).live 4 = true ↔ intrShared.useCount 4 - 1 ≠ 0) := by
  have hinv : intrInvariant intrShared := by
    intro line
    by_cases hl : line = 4
    · subst hl
      exact ⟨by simp [intrShared, countSubs], by simp [intrShared]⟩
    · have hl2 : ¬ (4 : Nat) = line := fun h => hl h.symm
      exact ⟨by simp [intrShared, countSubs, hl, hl2], by simp [intrShared, hl]⟩
  exact claim_c8_interrupt_registry.2.2.2.1 intrShared 0 4 hinv rfl

theorem enqueuePQ_working (q : PQState) (t : Nat) (h : q.working = true) :
    enqueuePQ q t = { q with queue := q.queue ++ [t] } := by
  simp [enqueuePQ, dequeuePQ, h]

theorem enqueueAllPQ_working (ts : List Nat) :
    ∀ (q : PQState), q.working = true →
      enqueueAllPQ q ts = { q with queue := q.queue ++ ts } := by
  induction ts with
  | nil =>
    intro q h
    simp [enqueueAllPQ]
  | cons t rest ih =>
    intro q h
    show enqueueAllPQ (enqueuePQ q t) rest = _
    rw [enqueuePQ_working q t h, ih { q with queue := q.queue ++ [t] } h]
    simp

theorem settleNPQ_drain (outcome : Nat → Except Nat Nat) :
    ∀ (pending : List Nat) (t : Nat) (done : List (Nat × Except Nat Nat)),
      settleNPQ outcome (pending.length + 1)
        { queue := pending, working := true, current := some t, settled := done } =
      { queue := [], working := false, current := none,
        settled := done ++ (t :: pending).map (fun x => (x, outcome x)) } := by
  intro pending
  induction pending with
  | nil =>
    intro t done
    simp [settleNPQ, settlePQ, dequeuePQ]
  | cons p rest ih =>
    intro t done
    have hstep : settlePQ outcome
        { queue := p :: rest, working := true, current := some t, settled := done } =
        { queue := rest, working := true, current := some p,
          settled := done ++ [(t, outcome t)] } := by
      simp [settlePQ, dequeuePQ]
    show settleNPQ outcome (rest.length + 1 + 1) _ = _
    rw [settleNPQ, hstep, ih p (done ++ [(t, outcome t)])]
    simp

theorem pq_fifo_run (outcome : Nat → Except Nat Nat) (ts : List Nat) :
    settleNPQ outcome ts.length (enqueueAllPQ emptyPQ ts) =
      { queue := [], working := false, current := none,
        settled := ts.map (fun t => (t, outcome t)) } := by
  cases ts with
  | nil => simp [enqueueAllPQ, settleNPQ, emptyPQ]
  | cons t rest =>
    have h1 : enqueuePQ emptyPQ t =
        { queue := [], working := true, current := some t, settled := [] } := by
      simp [enqueuePQ, dequeuePQ, emptyPQ]
    show settleNPQ outcome (rest.length + 1) (enqueueAllPQ (enqueuePQ emptyPQ t) rest) = _
    rw [h1, enqueueAllPQ_working rest _ rfl]
    simpa using settleNPQ_drain outcome rest t []

/-- Claim C9: the task queue runs at most one task at a time (the `working`
flag tracks exactly whether a task is pending, and `dequeue` refuses to
start anything while one is), starts queued tasks in FIFO submission order,
settles each handle with exactly its own task's outcome, and never halts on
a failure: for any outcome assignment (including failures), enqueueing any
task list and letting every task settle runs all of them, logging the
settlements in submission order with their own outcomes, and leaves the
queue idle. -/
theorem claim_c9_promise_queue :
    (∀ (outcome : Nat → Except Nat Nat) (ts : List Nat),
      settleNPQ outcome ts.length (enqueueAllPQ emptyPQ ts) =
        { queue := [], working := false, current := none,
          settled := ts.map (fun t => (t, outcome t)) }) ∧
    (∀ (q : PQState), q.working = true → dequeuePQ q = q) ∧
    (∀ (q : PQState) (t : Nat) (outcome : Nat → Except Nat Nat),
      q.working = q.current.isSome →
        ((enqueuePQ q t).working = (enqueuePQ q t).current.isSome ∧
          (settlePQ outcome q).working = (settlePQ outcome q).current.isSome)) := by
  refine ⟨pq_fifo_run, ?_, ?_⟩
  · intro q h
    simp [dequeuePQ, h]
  · intro q t outcome h
    constructor
    · by_cases hw : q.working = true
      · rw [enqueuePQ_working q t hw]
        simpa using h
      · have hq : q.working = false := by
          revert hw
          cases q.working <;> simp
        have hcur : q.current = none := by
          rw [hq] at h
          cases hc : q.current with
          | none => rfl
          | some x =>
            rw [hc] at h
            simp at h
        rcases hqq : q.queue with _ | ⟨a, as⟩ <;>
          simp [enqueuePQ, dequeuePQ, hq, hqq]
    · cases hc : q.current with
      | none => simpa [settlePQ, hc] using h
      | some x =>
        rcases hqq : q.queue with _ | ⟨a, as⟩ <;>
          simp [settlePQ, hc, dequeuePQ, hqq]

/-- Witness for claim C9: `dequeue` on a busy queue starts nothing. -/
theorem claim_c9_promise_queue_witness : dequeuePQ pqBusy = pqBusy :=
  claim_c9_promise_queue.2.1 pqBusy rfl
